import Mathlib

/-!
Verification of the thread-pool subsystem of SecUtility.Core.

This file shallowly embeds the class SecUtility::Threading::ThreadPool
(header provided as src/unnamed/part_007) as a labelled transition system.
Every access to the pool's shared mutable state (m_Tasks, m_Stop, m_Workers)
in the source happens inside a critical section of the single mutex m_Mutex,
so each such critical section is one atomic action of the model:

* Action.submit     — the locked region of ThreadPool::Submit (lines 68-75):
                      check m_Stop, throw or push the packaged task at the
                      tail of m_Tasks.
* Action.setStop    — the locked region of ~ThreadPool (lines 83-86):
                      set m_Stop to true.
* Action.dequeue    — the locked region of ThreadPool::WorkerThread
                      (lines 110-121) in the case where the queue is
                      non-empty: pop the front task and start running it.
* Action.finish     — the call task() outside the lock (lines 123-127):
                      std::packaged_task invokes the task body, catches any
                      exception and stores value or exception into the
                      task's shared future state, then the worker loops.
* Action.exitWorker — the locked region of WorkerThread in the case
                      m_Stop && m_Tasks.empty(): the worker returns.

The destructor has returned exactly when m_Stop is set and every worker
has been joined, i.e. every worker reached the return in WorkerThread.

Tasks are identified by natural numbers.  The environment parameter
bodies : Nat -> Outcome gives, for each task, the result of invoking its
body: a returned value or the exception it throws (both encoded as Nat).
The fields submitted / dequeued / finished / invoked of the state are ghost
history variables recording, in order, which events have happened; they are
written by exactly the action embedding the corresponding source line and
read by no action, so they do not influence the dynamics.

ThreadPool::ThreadPool is embedded twice: mkPool is the successful
construction (all max(numThreads, 1) calls to std::thread's constructor
succeed), and constructPool additionally models C++ semantics when the
i-th std::thread constructor throws: the constructor body unwinds, the
already-constructed member m_Workers (a std::vector holding i joinable
std::thread objects) is destroyed, and destroying a joinable std::thread
calls std::terminate, so for i >= 1 the process terminates instead of
propagating the exception; only for i = 0 (no thread started yet) does the
exception propagate to the caller.

MasterThreadPool (lines 146-158) is embedded as a transformer of a process
state holding the function-local static pointer: absent before the first
call, allocated by the first call, returned unchanged by every later call.
No operation of the program ever deletes the instance (the pointer is
intentionally leaked), which is the source's "never destroyed" behaviour.
-/

namespace SecUtility
namespace Threading

/-- The outcome a task body produces when invoked: the value it returns or
the exception it throws.  std::packaged_task stores exactly one of these
into the task's shared future state.  Values and exceptions are encoded as
naturals. -/
inductive Outcome where
  | value : Nat → Outcome
  | failure : Nat → Outcome
deriving DecidableEq, Repr

/-- Position of one worker thread inside ThreadPool::WorkerThread:
idle (inside m_Condition.wait or between iterations), running a dequeued
task (executing task() outside the lock), or returned (line 116). -/
inductive WorkerState where
  | idle
  | running (tid : Nat)
  | terminated
deriving DecidableEq, Repr

/-- The shared state of one ThreadPool plus ghost history variables.
tasks is m_Tasks (front of the queue = head of the list), workers is
m_Workers (each thread reduced to its WorkerState), stop is m_Stop,
handles tid is the shared future state of task tid (none = not yet
satisfied, some o = satisfied with outcome o).  submitted, dequeued,
finished and invoked are ghost histories: the order in which tasks were
accepted by Submit, popped at line 119-120, completed at line 126, and the
order in which task bodies were invoked. -/
structure PoolState where
  stop : Bool
  tasks : List Nat
  workers : List WorkerState
  submitted : List Nat
  dequeued : List Nat
  finished : List Nat
  invoked : List Nat
  handles : Nat → Option Outcome

/-- ThreadPool::ThreadPool (lines 34-43) when every std::thread
constructor succeeds: max(numThreads, 1) workers are created, each enters
WorkerThread and waits; the queue is empty, the stop flag is false, no
future is satisfied. -/
def mkPool (numThreads : Nat) : PoolState :=
  { stop := false
    tasks := []
    workers := List.replicate (max numThreads 1) WorkerState.idle
    submitted := []
    dequeued := []
    finished := []
    invoked := []
    handles := fun _ => none }

/-- ThreadPool::Submit (lines 50-79).  The packaged task and its future
are created before the lock without touching pool state.  Under the lock:
if m_Stop is set, throw std::runtime_error (the state is unchanged, the
future is discarded, the callable is destroyed uninvoked); otherwise push
the task at the tail of m_Tasks and return the future to the caller.  The
returned Nat names the future (result handle) of task tid. -/
def Submit (s : PoolState) (tid : Nat) : PoolState × Except String Nat :=
  if s.stop then
    (s, Except.error "Cannot submit task to stopped ThreadPool")
  else
    ({ s with tasks := s.tasks ++ [tid], submitted := s.submitted ++ [tid] },
     Except.ok tid)

/-- ThreadPool::ThreadCount (lines 98-101): m_Workers.size(). -/
def ThreadCount (s : PoolState) : Nat :=
  s.workers.length

/-- The identifiers of the tasks currently being executed by some worker
(one per worker that sits in task() at line 126). -/
def runningOf (ws : List WorkerState) : List Nat :=
  ws.filterMap fun w =>
    match w with
    | WorkerState.running tid => some tid
    | _ => none

/-- Labels of the atomic actions of the pool; see the file header for the
source location each one embeds.  In submit, tid is the identity of the
fresh task object created by this call; in the worker actions, w is the
index of the worker in m_Workers. -/
inductive Action where
  | submit (tid : Nat)
  | setStop
  | dequeue (w : Nat)
  | finish (w : Nat)
  | exitWorker (w : Nat)
deriving DecidableEq, Repr

/-- One atomic action.  none means the action cannot occur in state s:
its critical section's guard fails (a Submit on a stopped pool throws and
changes nothing, a worker cannot pop from an empty queue, cannot return
while the queue is non-empty or the stop flag is clear, and each Submit
call creates a task object distinct from every earlier one, enforced by
the freshness guard tid ∉ s.submitted). -/
def step (bodies : Nat → Outcome) (s : PoolState) : Action → Option PoolState
  | Action.submit tid =>
      if tid ∈ s.submitted then none
      else
        match Submit s tid with
        | (s1, Except.ok _) => some s1
        | (_, Except.error _) => none
  | Action.setStop => some { s with stop := true }
  | Action.dequeue w =>
      match s.workers[w]?, s.tasks with
      | some WorkerState.idle, tid :: rest =>
          some { s with
                 tasks := rest
                 workers := s.workers.set w (WorkerState.running tid)
                 dequeued := s.dequeued ++ [tid] }
      | _, _ => none
  | Action.finish w =>
      match s.workers[w]? with
      | some (WorkerState.running tid) =>
          some { s with
                 workers := s.workers.set w WorkerState.idle
                 finished := s.finished ++ [tid]
                 invoked := s.invoked ++ [tid]
                 handles := Function.update s.handles tid (some (bodies tid)) }
      | _ => none
  | Action.exitWorker w =>
      match s.workers[w]? with
      | some WorkerState.idle =>
          if s.stop = true ∧ s.tasks = [] then
            some { s with workers := s.workers.set w WorkerState.terminated }
          else none
      | _ => none

/-- Execution of a finite sequence of atomic actions; none if some action
in the list is not enabled when its turn comes. -/
def run (bodies : Nat → Outcome) : List Action → PoolState → Option PoolState
  | [], s => some s
  | a :: acts, s =>
      match step bodies s a with
      | some s1 => run bodies acts s1
      | none => none

/-- ~ThreadPool has returned: the stop flag is set and every worker has
been joined, i.e. every worker reached the return at line 116. -/
def DestructorReturned (s : PoolState) : Prop :=
  s.stop = true ∧ ∀ w ∈ s.workers, w = WorkerState.terminated

instance (s : PoolState) : Decidable (DestructorReturned s) :=
  inferInstanceAs
    (Decidable (s.stop = true ∧ ∀ w ∈ s.workers, w = WorkerState.terminated))

/-- Result of running ThreadPool::ThreadPool (lines 34-43) when the i-th
std::thread constructor may fail (spawnOk i = false models OS resource
exhaustion at spawn i).  On the first failure the constructor body
unwinds; the member m_Workers, a std::vector already holding the threads
spawned so far, is destroyed, and the destructor of a joinable std::thread
calls std::terminate.  Hence: failure at spawn 0 propagates the exception
to the caller (no joinable thread exists yet); failure at spawn i >= 1
terminates the process with i workers neither torn down nor joined. -/
inductive ConstructResult where
  | ok (p : PoolState)
  | raised (msg : String)
  | processTerminated (startedWorkers : Nat)

/-- ThreadPool::ThreadPool with fallible thread spawns; see
ConstructResult. -/
def constructPool (numThreads : Nat) (spawnOk : Nat → Bool) : ConstructResult :=
  match (List.range (max numThreads 1)).find? (fun i => !spawnOk i) with
  | none => ConstructResult.ok (mkPool numThreads)
  | some i =>
      if i = 0 then ConstructResult.raised "std::system_error: thread creation failed"
      else ConstructResult.processTerminated i

/-- The process-wide state behind MasterThreadPool (lines 146-158): the
function-local static pointer.  master is the identity of the pool the
pointer refers to (none before the first call); nextId is a fresh-identity
supply for heap allocations.  No operation of the program ever resets
master to none: the instance is intentionally leaked and never destroyed. -/
structure ProcessState where
  master : Option Nat
  nextId : Nat
deriving DecidableEq, Repr

/-- Process state at program start: the static pointer not yet
initialized. -/
def initialProcess : ProcessState :=
  { master := none, nextId := 0 }

/-- MasterThreadPool (lines 146-158): on the first call the initializer
runs, heap-allocates a ThreadPool and stores the (leaked) pointer in the
static; every later call returns the same pointer and changes nothing.
The returned Nat is the identity of the returned pool instance. -/
def MasterThreadPool (ps : ProcessState) : Nat × ProcessState :=
  match ps.master with
  | some i => (i, ps)
  | none => (ps.nextId, { master := some ps.nextId, nextId := ps.nextId + 1 })

/-- The inductive invariant of the pool, relative to the environment of
task bodies.  fifo: the accepted tasks are exactly the dequeued ones
followed by the still-queued ones, in order (the queue is FIFO and every
pop takes the front).  accounted: every dequeued task is either finished
or currently running in exactly one worker (counted with multiplicity).
nodupSub: distinct Submit calls produce distinct task objects.
stopOfTerm: a worker only returns after the stop flag is set.
drained: when every worker has returned the queue is empty.
handlesIff: a task's future state is satisfied exactly when the task has
finished, and then it holds exactly the outcome its body produced.
invokedEq: task bodies are invoked exactly by completed executions.
wlen: the worker vector is non-empty (the constructor coerces 0 to 1). -/
structure Inv (bodies : Nat → Outcome) (s : PoolState) : Prop where
  fifo : s.submitted = s.dequeued ++ s.tasks
  accounted : s.dequeued.Perm (s.finished ++ runningOf s.workers)
  nodupSub : s.submitted.Nodup
  stopOfTerm : WorkerState.terminated ∈ s.workers → s.stop = true
  drained : (∀ w ∈ s.workers, w = WorkerState.terminated) → s.tasks = []
  handlesIff : ∀ tid o, s.handles tid = some o ↔ (tid ∈ s.finished ∧ o = bodies tid)
  invokedEq : s.invoked = s.finished
  wlen : 0 < s.workers.length

/-- Task bodies used by the concrete executions below: task 5 throws
exception 3, every other task tid returns the value 2 * tid. -/
def demoBodies : Nat → Outcome :=
  fun tid => if tid = 5 then Outcome.failure 3 else Outcome.value (2 * tid)

/-- A one-worker pool whose destructor has set the stop flag. -/
def stoppedPool : PoolState :=
  { mkPool 1 with stop := true }

/-- Concrete execution: submit task 0, begin destruction, drain, join. -/
def c1Acts : List Action :=
  [Action.submit 0, Action.setStop, Action.dequeue 0, Action.finish 0,
   Action.exitWorker 0]

/-- The state reached by c1Acts from mkPool 1. -/
def c1Final : PoolState :=
  { stop := true
    tasks := []
    workers := [WorkerState.terminated]
    submitted := [0]
    dequeued := [0]
    finished := [0]
    invoked := [0]
    handles := Function.update (fun _ => none) 0 (some (Outcome.value 0)) }

/-- Concrete execution: submit tasks 1 and 2, then one dequeue. -/
def fifoActs : List Action :=
  [Action.submit 1, Action.submit 2, Action.dequeue 0]

/-- The state reached by fifoActs from mkPool 1. -/
def fifoFinal : PoolState :=
  { stop := false
    tasks := [2]
    workers := [WorkerState.running 1]
    submitted := [1, 2]
    dequeued := [1]
    finished := []
    invoked := []
    handles := fun _ => none }

/-- A one-worker pool whose worker is executing task 5 (whose body
throws). -/
def c4Start : PoolState :=
  { stop := false
    tasks := []
    workers := [WorkerState.running 5]
    submitted := [5]
    dequeued := [5]
    finished := []
    invoked := []
    handles := fun _ => none }

/-- The state after the worker of c4Start finishes task 5. -/
def c4End : PoolState :=
  { stop := false
    tasks := []
    workers := [WorkerState.idle]
    submitted := [5]
    dequeued := [5]
    finished := [5]
    invoked := [5]
    handles := Function.update (fun _ => none) 5 (some (Outcome.failure 3)) }

/-- Concrete execution: submit the throwing task 5, run it to completion. -/
def c5Acts : List Action :=
  [Action.submit 5, Action.dequeue 0, Action.finish 0]

/-- The state reached by c5Acts from mkPool 1. -/
def c5Final : PoolState :=
  { stop := false
    tasks := []
    workers := [WorkerState.idle]
    submitted := [5]
    dequeued := [5]
    finished := [5]
    invoked := [5]
    handles := Function.update (fun _ => none) 5 (some (Outcome.failure 3)) }

/-- Concrete execution: submit task 3 and dequeue it. -/
def c7Acts : List Action :=
  [Action.submit 3, Action.dequeue 0]

/-- The state reached by c7Acts from mkPool 1. -/
def c7Final : PoolState :=
  { stop := false
    tasks := []
    workers := [WorkerState.running 3]
    submitted := [3]
    dequeued := [3]
    finished := []
    invoked := []
    handles := fun _ => none }

/-- Characterization of an enabled submit action (the success path of
ThreadPool::Submit): the task id is fresh, the stop flag is clear, and the
state change is exactly pushing the task at the tail of the queue. -/
theorem step_submit_some {bodies : Nat → Outcome} {s s' : PoolState} {tid : Nat}
    (h : step bodies s (Action.submit tid) = some s') :
    tid ∉ s.submitted ∧ s.stop = false ∧
      s' = { s with tasks := s.tasks ++ [tid], submitted := s.submitted ++ [tid] } := by
  obtain ⟨st, tk, wk, su, dq, fi, iv, hd⟩ := s
  by_cases hmem : tid ∈ su
  · simp [step, hmem] at h
  · cases st with
    | true => simp [step, Submit, hmem] at h
    | false =>
      simp [step, Submit, hmem] at h
      exact ⟨hmem, rfl, h.symm⟩

/-- Characterization of the destructor's lock region: it only sets the
stop flag. -/
theorem step_setStop_some {bodies : Nat → Outcome} {s s' : PoolState}
    (h : step bodies s Action.setStop = some s') :
    s' = { s with stop := true } := by
  simp [step] at h
  exact h.symm

/-- Characterization of an enabled dequeue: worker w was idle, the queue
was non-empty, and the state change is exactly popping the front task and
marking w as running it. -/
theorem step_dequeue_some {bodies : Nat → Outcome} {s s' : PoolState} {w : Nat}
    (h : step bodies s (Action.dequeue w) = some s') :
    ∃ tid rest, s.workers[w]? = some WorkerState.idle ∧ s.tasks = tid :: rest ∧
      s' = { s with
             tasks := rest
             workers := s.workers.set w (WorkerState.running tid)
             dequeued := s.dequeued ++ [tid] } := by
  simp only [step] at h
  split at h
  · rename_i tid rest heq1 heq2
    simp only [Option.some_inj] at h
    exact ⟨tid, rest, heq1, heq2, h.symm⟩
  · exact absurd h (by simp)

/-- Characterization of an enabled finish: worker w was running some task
tid, and the state change is exactly storing the body's outcome into tid's
future state and returning w to idle. -/
theorem step_finish_some {bodies : Nat → Outcome} {s s' : PoolState} {w : Nat}
    (h : step bodies s (Action.finish w) = some s') :
    ∃ tid, s.workers[w]? = some (WorkerState.running tid) ∧
      s' = { s with
             workers := s.workers.set w WorkerState.idle
             finished := s.finished ++ [tid]
             invoked := s.invoked ++ [tid]
             handles := Function.update s.handles tid (some (bodies tid)) } := by
  simp only [step] at h
  split at h
  · rename_i tid heq
    simp only [Option.some_inj] at h
    exact ⟨tid, heq, h.symm⟩
  · exact absurd h (by simp)

/-- Characterization of an enabled worker exit: worker w was idle, the
stop flag set, the queue empty, and the state change is exactly marking w
terminated. -/
theorem step_exitWorker_some {bodies : Nat → Outcome} {s s' : PoolState} {w : Nat}
    (h : step bodies s (Action.exitWorker w) = some s') :
    s.workers[w]? = some WorkerState.idle ∧ s.stop = true ∧ s.tasks = [] ∧
      s' = { s with workers := s.workers.set w WorkerState.terminated } := by
  simp only [step] at h
  split at h
  · rename_i heq
    split at h
    · rename_i hcond
      simp only [Option.some_inj] at h
      exact ⟨heq, hcond.1, hcond.2, h.symm⟩
    · exact absurd h (by simp)
  · exact absurd h (by simp)

/-- Replacing an idle worker by one running tid adds exactly tid to the
multiset of running task ids. -/
theorem runningOf_set_running (ws : List WorkerState) (w tid : Nat)
    (h : ws[w]? = some WorkerState.idle) :
    (runningOf (ws.set w (WorkerState.running tid))).Perm (tid :: runningOf ws) := by
  induction ws generalizing w with
  | nil => simp at h
  | cons a l ih =>
    cases w with
    | zero =>
      simp only [List.getElem?_cons_zero, Option.some_inj] at h
      subst h
      simp [runningOf, List.filterMap_cons]
    | succ w =>
      simp only [List.getElem?_cons_succ] at h
      have hrec := ih w h
      cases a with
      | idle => simpa [runningOf, List.filterMap_cons] using hrec
      | running x =>
        simp only [runningOf, List.filterMap_cons, List.set_cons_succ] at hrec ⊢
        exact (hrec.cons x).trans (List.Perm.swap tid x _)
      | terminated => simpa [runningOf, List.filterMap_cons] using hrec

/-- Returning a worker running tid to idle removes exactly tid from the
multiset of running task ids. -/
theorem runningOf_set_idle (ws : List WorkerState) (w tid : Nat)
    (h : ws[w]? = some (WorkerState.running tid)) :
    (runningOf ws).Perm (tid :: runningOf (ws.set w WorkerState.idle)) := by
  induction ws generalizing w with
  | nil => simp at h
  | cons a l ih =>
    cases w with
    | zero =>
      simp only [List.getElem?_cons_zero, Option.some_inj] at h
      subst h
      simp [runningOf, List.filterMap_cons]
    | succ w =>
      simp only [List.getElem?_cons_succ] at h
      have hrec := ih w h
      cases a with
      | idle => simpa [runningOf, List.filterMap_cons] using hrec
      | running x =>
        simp only [runningOf, List.filterMap_cons, List.set_cons_succ] at hrec ⊢
        exact (hrec.cons x).trans (List.Perm.swap tid x _)
      | terminated => simpa [runningOf, List.filterMap_cons] using hrec

/-- Terminating an idle worker leaves the multiset of running task ids
unchanged. -/
theorem runningOf_set_terminated (ws : List WorkerState) (w : Nat)
    (h : ws[w]? = some WorkerState.idle) :
    runningOf (ws.set w WorkerState.terminated) = runningOf ws := by
  induction ws generalizing w with
  | nil => simp at h
  | cons a l ih =>
    cases w with
    | zero =>
      simp only [List.getElem?_cons_zero, Option.some_inj] at h
      subst h
      simp [runningOf, List.filterMap_cons]
    | succ w =>
      simp only [List.getElem?_cons_succ] at h
      have hrec := ih w h
      cases a <;>
        simp only [runningOf, List.filterMap_cons, List.set_cons_succ] at hrec ⊢ <;>
        simp [hrec]

/-- The invariant holds after construction. -/
theorem inv_mkPool (bodies : Nat → Outcome) (t : Nat) : Inv bodies (mkPool t) := by
  refine ⟨rfl, by simp [mkPool, runningOf], by simp [mkPool], ?_, ?_, ?_, rfl, ?_⟩
  · intro hmem
    simp [mkPool, List.mem_replicate] at hmem
  · intro _
    rfl
  · intro tid o
    simp [mkPool]
  · simp [mkPool]

/-- Every atomic action preserves the invariant. -/
theorem inv_step {bodies : Nat → Outcome} {s s' : PoolState} {a : Action}
    (hs : Inv bodies s) (h : step bodies s a = some s') : Inv bodies s' := by
  cases a with
  | submit tid =>
    obtain ⟨hfresh, hstop, rfl⟩ := step_submit_some h
    refine ⟨?_, hs.accounted, ?_, ?_, ?_, hs.handlesIff, hs.invokedEq, hs.wlen⟩
    · show s.submitted ++ [tid] = s.dequeued ++ (s.tasks ++ [tid])
      rw [hs.fifo, List.append_assoc]
    · refine List.nodup_append.2 ⟨hs.nodupSub, List.nodup_singleton tid, ?_⟩
      intro a ha hb
      simp only [List.mem_singleton] at hb
      exact hfresh (hb ▸ ha)
    · intro hm
      exact hs.stopOfTerm hm
    · intro hall
      obtain ⟨w0, hw0⟩ := List.exists_mem_of_length_pos hs.wlen
      have hterm : WorkerState.terminated ∈ s.workers := hall w0 hw0 ▸ hw0
      have := hs.stopOfTerm hterm
      rw [hstop] at this
      exact absurd this (by simp)
  | setStop =>
    obtain rfl := step_setStop_some h
    exact ⟨hs.fifo, hs.accounted, hs.nodupSub, fun _ => rfl, hs.drained,
           hs.handlesIff, hs.invokedEq, hs.wlen⟩
  | dequeue w =>
    obtain ⟨tid, rest, hw, ht, rfl⟩ := step_dequeue_some h
    obtain ⟨hwlt, -⟩ := List.getElem?_eq_some.mp hw
    refine ⟨?_, ?_, hs.nodupSub, ?_, ?_, hs.handlesIff, hs.invokedEq, ?_⟩
    · show s.submitted = (s.dequeued ++ [tid]) ++ rest
      rw [hs.fifo, ht]
      simp
    · show (s.dequeued ++ [tid]).Perm
        (s.finished ++ runningOf (s.workers.set w (WorkerState.running tid)))
      refine (List.perm_append_singleton tid s.dequeued).trans ?_
      refine (hs.accounted.cons tid).trans ?_
      refine (List.perm_middle).symm.trans ?_
      exact List.Perm.append_left s.finished (runningOf_set_running s.workers w tid hw).symm
    · intro hm
      rcases List.mem_or_eq_of_mem_set hm with hm' | hm'
      · exact hs.stopOfTerm hm'
      · exact absurd hm' (by simp)
    · intro hall
      have hset : (s.workers.set w (WorkerState.running tid))[w]? =
          some (WorkerState.running tid) := by
        rw [List.getElem?_set]
        simp [hwlt]
      have hmem : WorkerState.running tid ∈ s.workers.set w (WorkerState.running tid) :=
        List.getElem?_mem hset
      have := hall _ hmem
      exact absurd this (by simp)
    · simpa using hs.wlen
  | finish w =>
    obtain ⟨tid, hw, rfl⟩ := step_finish_some h
    obtain ⟨hwlt, -⟩ := List.getElem?_eq_some.mp hw
    refine ⟨hs.fifo, ?_, hs.nodupSub, ?_, ?_, ?_, ?_, ?_⟩
    · show s.dequeued.Perm
        ((s.finished ++ [tid]) ++ runningOf (s.workers.set w WorkerState.idle))
      have := hs.accounted.trans
        (List.Perm.append_left s.finished (runningOf_set_idle s.workers w tid hw))
      simpa [List.append_assoc] using this
    · intro hm
      rcases List.mem_or_eq_of_mem_set hm with hm' | hm'
      · exact hs.stopOfTerm hm'
      · exact absurd hm' (by simp)
    · intro hall
      have hset : (s.workers.set w WorkerState.idle)[w]? = some WorkerState.idle := by
        rw [List.getElem?_set]
        simp [hwlt]
      have hmem : WorkerState.idle ∈ s.workers.set w WorkerState.idle :=
        List.getElem?_mem hset
      have := hall _ hmem
      exact absurd this (by simp)
    · intro t' o
      by_cases ht' : t' = tid
      · subst ht'
        simp [Function.update_same]
        exact eq_comm
      · simp only [Function.update_noteq ht', hs.handlesIff t' o, List.mem_append,
          List.mem_singleton, ht', or_false]
    · show s.invoked ++ [tid] = s.finished ++ [tid]
      rw [hs.invokedEq]
    · simpa using hs.wlen
  | exitWorker w =>
    obtain ⟨hw, hstop, htasks, rfl⟩ := step_exitWorker_some h
    refine ⟨hs.fifo, ?_, hs.nodupSub, fun _ => hstop, fun _ => htasks,
           hs.handlesIff, hs.invokedEq, ?_⟩
    · show s.dequeued.Perm
        (s.finished ++ runningOf (s.workers.set w WorkerState.terminated))
      rw [runningOf_set_terminated s.workers w hw]
      exact hs.accounted
    · simpa using hs.wlen

/-- The invariant is preserved by whole executions. -/
theorem inv_run {bodies : Nat → Outcome} {acts : List Action} {s s' : PoolState}
    (hs : Inv bodies s) (h : run bodies acts s = some s') : Inv bodies s' := by
  induction acts generalizing s with
  | nil =>
    simp only [run, Option.some_inj] at h
    exact h ▸ hs
  | cons a acts ih =>
    simp only [run] at h
    cases hstep : step bodies s a with
    | none => rw [hstep] at h; simp at h
    | some s1 => rw [hstep] at h; exact ih (inv_step hs hstep) h

/-- No atomic action resizes the worker vector. -/
theorem step_workers_length {bodies : Nat → Outcome} {s s' : PoolState} {a : Action}
    (h : step bodies s a = some s') : s'.workers.length = s.workers.length := by
  cases a with
  | submit tid => obtain ⟨-, -, rfl⟩ := step_submit_some h; rfl
  | setStop => obtain rfl := step_setStop_some h; rfl
  | dequeue w => obtain ⟨tid, rest, -, -, rfl⟩ := step_dequeue_some h; simp
  | finish w => obtain ⟨tid, -, rfl⟩ := step_finish_some h; simp
  | exitWorker w => obtain ⟨-, -, -, rfl⟩ := step_exitWorker_some h; simp

/-- No execution resizes the worker vector. -/
theorem run_workers_length {bodies : Nat → Outcome} {acts : List Action} {s s' : PoolState}
    (h : run bodies acts s = some s') : s'.workers.length = s.workers.length := by
  induction acts generalizing s with
  | nil =>
    simp only [run, Option.some_inj] at h
    rw [← h]
  | cons a acts ih =>
    simp only [run] at h
    cases hstep : step bodies s a with
    | none => rw [hstep] at h; simp at h
    | some s1 => rw [hstep] at h; rw [ih h, step_workers_length hstep]

/-- The finished history only grows along an atomic action. -/
theorem step_finished_mono {bodies : Nat → Outcome} {s s' : PoolState} {a : Action}
    (h : step bodies s a = some s') {tid : Nat} (hm : tid ∈ s.finished) :
    tid ∈ s'.finished := by
  cases a with
  | submit t => obtain ⟨-, -, rfl⟩ := step_submit_some h; exact hm
  | setStop => obtain rfl := step_setStop_some h; exact hm
  | dequeue w => obtain ⟨t, rest, -, -, rfl⟩ := step_dequeue_some h; exact hm
  | finish w =>
    obtain ⟨t, -, rfl⟩ := step_finish_some h
    exact List.mem_append_left _ hm
  | exitWorker w => obtain ⟨-, -, -, rfl⟩ := step_exitWorker_some h; exact hm

/-- The finished history only grows along an execution. -/
theorem run_finished_mono {bodies : Nat → Outcome} {acts : List Action} {s s' : PoolState}
    (h : run bodies acts s = some s') {tid : Nat} (hm : tid ∈ s.finished) :
    tid ∈ s'.finished := by
  induction acts generalizing s with
  | nil =>
    simp only [run, Option.some_inj] at h
    exact h ▸ hm
  | cons a acts ih =>
    simp only [run] at h
    cases hstep : step bodies s a with
    | none => rw [hstep] at h; simp at h
    | some s1 => rw [hstep] at h; exact ih h (step_finished_mono hstep hm)

/-- Claim C1: in every reachable state in which the pool's destructor has
returned, every task that was successfully accepted by Submit (all of
which were accepted before the stop flag was set, since Submit rejects
afterwards) has been dequeued by exactly one worker, executed exactly
once, never discarded and never rerun, and its execution has completed:
its future state holds its body's outcome, and the queue is empty. -/
theorem no_task_loss (t : Nat) (bodies : Nat → Outcome) (acts : List Action)
    (s : PoolState) (h : run bodies acts (mkPool t) = some s)
    (hdone : DestructorReturned s) :
    s.dequeued = s.submitted ∧ s.finished.Perm s.submitted ∧ s.tasks = [] ∧
      ∀ tid ∈ s.submitted,
        List.count tid s.dequeued = 1 ∧ List.count tid s.finished = 1 ∧
          s.handles tid = some (bodies tid) := by
  have hinv := inv_run (inv_mkPool bodies t) h
  obtain ⟨hstop, hall⟩ := hdone
  have htasks : s.tasks = [] := hinv.drained hall
  have hrun0 : runningOf s.workers = [] := by
    refine List.filterMap_eq_nil_iff.mpr ?_
    intro w hw
    rw [hall w hw]
  have hdeq : s.dequeued = s.submitted := by
    rw [hinv.fifo, htasks, List.append_nil]
  have hfin : s.finished.Perm s.submitted := by
    have hp := hinv.accounted
    rw [hrun0, List.append_nil] at hp
    exact hdeq ▸ hp.symm
  refine ⟨hdeq, hfin, htasks, ?_⟩
  intro tid htid
  have hc : List.count tid s.submitted = 1 :=
    List.count_eq_one_of_mem hinv.nodupSub htid
  refine ⟨by rw [hdeq]; exact hc, by rw [hfin.count_eq]; exact hc, ?_⟩
  exact (hinv.handlesIff tid (bodies tid)).mpr ⟨hfin.mem_iff.mpr htid, rfl⟩

/-- Witness for no_task_loss: a concrete execution of a one-worker pool
that accepts task 0, shuts down, drains and joins. -/
theorem no_task_loss_witness : c1Final.finished.Perm c1Final.submitted :=
  (no_task_loss 1 demoBodies c1Acts c1Final rfl (by decide)).2.1

/-- Claim C2: a Submit on a pool whose destructor has set the stop flag
raises the usage error synchronously to the caller: Submit returns the
error (not a result handle), the pool state is unchanged (the task is not
enqueued and no future state is touched), and no submit transition of the
pool can occur. -/
theorem submit_after_shutdown_raises (s : PoolState) (tid : Nat) (h : s.stop = true) :
    Submit s tid = (s, Except.error "Cannot submit task to stopped ThreadPool") ∧
      ∀ bodies : Nat → Outcome, step bodies s (Action.submit tid) = none := by
  constructor
  · simp [Submit, h]
  · intro bodies
    by_cases hmem : tid ∈ s.submitted
    · simp [step, hmem]
    · simp [step, Submit, h, hmem]

/-- Witness for submit_after_shutdown_raises on a concrete stopped pool. -/
theorem submit_after_shutdown_raises_witness :
    Submit stoppedPool 0 =
      (stoppedPool, Except.error "Cannot submit task to stopped ThreadPool") :=
  (submit_after_shutdown_raises stoppedPool 0 rfl).1

/-- Claim C3: the queue is FIFO and each dequeue removes the task at the
head: in every reachable state the accepted tasks are exactly the
dequeued tasks followed by the still-queued tasks in order, so the i-th
task to begin execution is the i-th task accepted by Submit. -/
theorem fifo_dispatch (t : Nat) (bodies : Nat → Outcome) (acts : List Action)
    (s : PoolState) (h : run bodies acts (mkPool t) = some s) :
    s.submitted = s.dequeued ++ s.tasks ∧
      ∀ i : Nat, i < s.dequeued.length → s.dequeued[i]? = s.submitted[i]? := by
  have hinv := inv_run (inv_mkPool bodies t) h
  refine ⟨hinv.fifo, ?_⟩
  intro i hi
  rw [hinv.fifo, List.getElem?_append]
  simp [hi]

/-- Witness for fifo_dispatch: two tasks submitted in order, one dequeue. -/
theorem fifo_dispatch_witness :
    fifoFinal.submitted = fifoFinal.dequeued ++ fifoFinal.tasks :=
  (fifo_dispatch 1 demoBodies fifoActs fifoFinal rfl).1

/-- Claim C4: when the body of the task a worker is executing raises an
exception, std::packaged_task captures it and stores it into that task's
own future state as the failure outcome; the worker returns to idle (the
exception never escapes the worker loop and never terminates the worker),
and every other task's future state, every other worker, the queue and
the accepted tasks are unchanged. -/
theorem task_failure_isolated (bodies : Nat → Outcome) (s s' : PoolState)
    (w tid e : Nat)
    (hw : s.workers[w]? = some (WorkerState.running tid))
    (hb : bodies tid = Outcome.failure e)
    (h : step bodies s (Action.finish w) = some s') :
    s'.handles tid = some (Outcome.failure e) ∧
      s'.workers[w]? = some WorkerState.idle ∧
      (∀ tid2, tid2 ≠ tid → s'.handles tid2 = s.handles tid2) ∧
      (∀ v, v ≠ w → s'.workers[v]? = s.workers[v]?) ∧
      s'.tasks = s.tasks ∧ s'.submitted = s.submitted ∧ s'.stop = s.stop := by
  obtain ⟨tid', hw', rfl⟩ := step_finish_some h
  have htid : tid' = tid := by
    rw [hw'] at hw
    simpa using hw
  subst htid
  obtain ⟨hwlt, -⟩ := List.getElem?_eq_some.mp hw'
  refine ⟨?_, ?_, ?_, ?_, rfl, rfl, rfl⟩
  · simp [Function.update_same, hb]
  · show (s.workers.set w WorkerState.idle)[w]? = some WorkerState.idle
    rw [List.getElem?_set]
    simp [hwlt]
  · intro tid2 hne
    simp [Function.update_noteq hne]
  · intro v hne
    show (s.workers.set w WorkerState.idle)[v]? = s.workers[v]?
    rw [List.getElem?_set, if_neg (Ne.symm hne)]

/-- Witness for task_failure_isolated: the worker runs task 5, whose body
throws exception 3. -/
theorem task_failure_isolated_witness : c4End.handles 5 = some (Outcome.failure 3) :=
  (task_failure_isolated demoBodies c4Start c4End 0 5 3 rfl rfl rfl).1

/-- Claim C5: a task's future state is written at most once (and exactly
once by the time the destructor returns, see no_task_loss), with exactly
one of value or failure, namely its body's outcome; it is unreadable
before completion (reading blocks: the shared state is not yet
satisfied), and, once satisfied, every read in every continuation of the
execution observes that same outcome. -/
theorem result_handle_once (t : Nat) (bodies : Nat → Outcome) (acts : List Action)
    (s : PoolState) (h : run bodies acts (mkPool t) = some s) :
    (∀ tid, List.count tid s.finished ≤ 1) ∧
      (∀ tid o, s.handles tid = some o ↔ (tid ∈ s.finished ∧ o = bodies tid)) ∧
      (∀ acts2 s2, run bodies acts2 s = some s2 →
        ∀ tid o, s.handles tid = some o → s2.handles tid = some o) := by
  have hinv := inv_run (inv_mkPool bodies t) h
  have hndDeq : s.dequeued.Nodup := by
    have hnd := hinv.nodupSub
    rw [hinv.fifo] at hnd
    exact hnd.of_append_left
  have hndFin : s.finished.Nodup :=
    ((hinv.accounted.nodup hndDeq)).of_append_left
  refine ⟨List.nodup_iff_count_le_one.mp hndFin, hinv.handlesIff, ?_⟩
  intro acts2 s2 h2 tid o hsome
  obtain ⟨hmem, ho⟩ := (hinv.handlesIff tid o).mp hsome
  have hinv2 := inv_run hinv h2
  exact (hinv2.handlesIff tid o).mpr ⟨run_finished_mono h2 hmem, ho⟩

/-- Witness for result_handle_once: after the throwing task 5 completes,
its future state holds exactly the failure outcome. -/
theorem result_handle_once_witness :
    c5Final.handles 5 = some (Outcome.failure 3) ↔
      (5 ∈ c5Final.finished ∧ Outcome.failure 3 = demoBodies 5) :=
  (result_handle_once 1 demoBodies c5Acts c5Final rfl).2.1 5 (Outcome.failure 3)

/-- Claim C6: construction with requested thread count t creates
max(t, 1) workers immediately, ThreadCount returns max(t, 1) in the
initial state and in every reachable state (fixed for the pool's
lifetime), and t = 0 is coerced to 1 rather than rejected. -/
theorem thread_count_max (t : Nat) (bodies : Nat → Outcome) (acts : List Action)
    (s : PoolState) (h : run bodies acts (mkPool t) = some s) :
    ThreadCount (mkPool t) = max t 1 ∧ ThreadCount s = max t 1 ∧
      ThreadCount (mkPool 0) = 1 := by
  have hlen : ThreadCount (mkPool t) = max t 1 := by simp [ThreadCount, mkPool]
  refine ⟨hlen, ?_, by simp [ThreadCount, mkPool]⟩
  show s.workers.length = max t 1
  rw [run_workers_length h]
  exact hlen

/-- Witness for thread_count_max: a requested count of zero yields one
worker. -/
theorem thread_count_max_witness : ThreadCount (mkPool 0) = 1 :=
  (thread_count_max 0 demoBodies [] (mkPool 0) rfl).2.2

/-- Claim C7: in every reachable state the number of simultaneously
executing task bodies is at most the worker count returned by
ThreadCount (each worker's state carries at most one running task), and
the worker vector is never resized. -/
theorem concurrency_bounded (t : Nat) (bodies : Nat → Outcome) (acts : List Action)
    (s : PoolState) (h : run bodies acts (mkPool t) = some s) :
    (runningOf s.workers).length ≤ ThreadCount s ∧
      ThreadCount s = ThreadCount (mkPool t) := by
  constructor
  · exact List.length_filterMap_le _ _
  · show s.workers.length = (mkPool t).workers.length
    exact run_workers_length h

/-- Witness for concurrency_bounded after one task has been dequeued. -/
theorem concurrency_bounded_witness :
    (runningOf c7Final.workers).length ≤ ThreadCount c7Final :=
  (concurrency_bounded 1 demoBodies c7Acts c7Final rfl).1

/-- Claim C8 is refuted by the code: if a std::thread constructor throws
after at least one worker was already started, the exception does not
propagate to the caller and the started workers are not torn down —
unwinding destroys m_Workers while it holds a joinable std::thread, which
calls std::terminate.  Only a failure of the very first spawn propagates
cleanly (no thread started yet).  Evaluated here at threadCount = 2 with
the second spawn failing. -/
theorem construct_failure_terminates :
    constructPool 2 (fun i => i == 0) = ConstructResult.processTerminated 1 ∧
      constructPool 2 (fun _ => false) =
        ConstructResult.raised "std::system_error: thread creation failed" := by
  constructor
  · rfl
  · rfl

/-- Claim C9: MasterThreadPool is lazily constructed and is a process-wide
singleton: before any call the static pointer is unset; after any call it
refers to the instance that call returned; and a further call returns
exactly that instance and changes nothing, so every call after the first
returns the first call's instance.  No operation of the model destroys
the instance. -/
theorem master_pool_singleton (ps : ProcessState) :
    initialProcess.master = none ∧
      (MasterThreadPool ps).2.master = some (MasterThreadPool ps).1 ∧
      MasterThreadPool (MasterThreadPool ps).2 =
        ((MasterThreadPool ps).1, (MasterThreadPool ps).2) := by
  refine ⟨rfl, ?_, ?_⟩ <;>
    cases hps : ps.master <;>
    simp [MasterThreadPool, hps]

/-- Claim C10: the throw in Submit after shutdown is atomic: the pool
state is returned exactly as it was — queue, stop flag, worker vector,
invocation history and every future state unchanged — the rejected
callable is never invoked, and the caller receives the error. -/
theorem submit_error_atomic (s : PoolState) (tid : Nat) (h : s.stop = true) :
    (Submit s tid).1 = s ∧
      (Submit s tid).1.tasks = s.tasks ∧
      (Submit s tid).1.stop = s.stop ∧
      (Submit s tid).1.workers = s.workers ∧
      (Submit s tid).1.invoked = s.invoked ∧
      (Submit s tid).1.handles = s.handles ∧
      (Submit s tid).2 = Except.error "Cannot submit task to stopped ThreadPool" := by
  simp [Submit, h]

/-- Witness for submit_error_atomic on a concrete stopped pool. -/
theorem submit_error_atomic_witness : (Submit stoppedPool 3).1 = stoppedPool :=
  (submit_error_atomic stoppedPool 3 rfl).1

end Threading
end SecUtility
